import Mathlib

/-!
Verification of the AutoJobApplier form-automation core against its
specification.  The definitions below are a shallow embedding of the
automation module documented (with code excerpts) in
`src/IMPLEMENTATION.md` of the repository: the modal locator with retry,
field-label derivation, skip/consent keyword logic, the answer-service
client with cleaning, retry and fallback, the form-filling algorithm,
the consecutive-error tracking and the multi-page navigation loop.
Strings are modelled as `List Char`; the browser page is modelled by
oracle functions answering the queries the code issues; the answer
service is an oracle that may fail (`Except`).
-/

namespace AutoJob

/-- Strings of the source program, as lists of characters. -/
abbrev Str := List Char

/-- Character list of a Lean string literal. -/
def chars (s : String) : Str := s.data

/-- Python `str.lower()` (all source keywords are ASCII). -/
def lower (s : Str) : Str := s.map Char.toLower

/-- The characters Python `str.split()` / `str.strip()` treat as whitespace. -/
def isPySpace (c : Char) : Bool :=
  c = ' ' || c = '\t' || c = '\n' || c = '\r' || c = Char.ofNat 11 || c = Char.ofNat 12

/-- Python `str.strip()`. -/
def pyStrip (s : Str) : Str :=
  ((s.dropWhile isPySpace).reverse.dropWhile isPySpace).reverse

/-- Whether the first list is an initial segment of the second. -/
def startsWith : Str → Str → Bool
  | [], _ => true
  | _ :: _, [] => false
  | a :: as, b :: bs => a == b && startsWith as bs

/-- Python substring containment `needle in haystack`. -/
def containsSub (needle : Str) : Str → Bool
  | [] => needle.isEmpty
  | c :: cs => startsWith needle (c :: cs) || containsSub needle cs

/-- Production constant of `LinkedInBotPlaywright` (IMPLEMENTATION.md line 299). -/
def MAX_RETRIES : Nat := 3

/-- Production constant of `LinkedInBotPlaywright` (IMPLEMENTATION.md line 300). -/
def RETRY_DELAY : Nat := 2

/-- Ordered modal selector strategies (IMPLEMENTATION.md lines 301-305). -/
def MODAL_SELECTORS : List Str :=
  [chars ".jobs-easy-apply-modal", chars "[role=\"dialog\"]", chars ".jobs-easy-apply-content"]

/-- Keywords marking page-level search/filter controls (IMPLEMENTATION.md lines 317-323). -/
def SKIP_KEYWORDS : List Str :=
  [chars "search by title", chars "search for", chars "type to search",
   chars "filter results by", chars "filter by"]

/-- Consent keyword set of the checkbox handler (IMPLEMENTATION.md line 543). -/
def consent_keywords : List Str :=
  [chars "agree", chars "consent", chars "acknowledge", chars "accept", chars "authorize"]

/-- `any(kw in label.lower() for kw in SKIP_KEYWORDS)`. -/
def skipHit (label : Str) : Bool :=
  SKIP_KEYWORDS.any (fun kw => containsSub kw (lower label))

/-- `any(kw in label.lower() for kw in consent_keywords)`. -/
def consentHit (label : Str) : Bool :=
  consent_keywords.any (fun kw => containsSub kw (lower label))

/-- Accumulator worker for Python `str.split()` (split on whitespace runs,
dropping empty groups); `acc` holds the current word reversed. -/
def pyWordsAux : Str → Str → List Str
  | [], acc => if acc.isEmpty then [] else [acc.reverse]
  | c :: cs, acc =>
    if isPySpace c then
      (if acc.isEmpty then pyWordsAux cs [] else acc.reverse :: pyWordsAux cs [])
    else pyWordsAux cs (c :: acc)

/-- Python `str.split()` with no arguments. -/
def pySplitWs (s : Str) : List Str := pyWordsAux s []

/-- Python `' '.join(words)`. -/
def joinWords : List Str → Str
  | [] => []
  | [w] => w
  | w :: ws => w ++ ' ' :: joinWords ws

/-- Answer cleaning in `AIHandler.generate_answer` (IMPLEMENTATION.md lines 403-409):
`answer.replace('\n',' ').replace('\r',' ')` then `' '.join(answer.split())`. -/
def generate_answer_clean (answer : Str) : Str :=
  let a1 := answer.map (fun c => if c = '\n' then ' ' else c)
  let a2 := a1.map (fun c => if c = '\r' then ' ' else c)
  joinWords (pySplitWs a2)

/-- The answer-shape hint passed to the answer service. -/
inductive FieldType where
  | text
  | numeric
  | boolean
deriving DecidableEq, Repr

/-- `_determine_field_type` (IMPLEMENTATION.md lines 414-429). -/
def _determine_field_type (label : Str) : FieldType :=
  let l := lower label
  if containsSub (chars "phone") l || containsSub (chars "mobile") l ||
     containsSub (chars "salary") l || containsSub (chars "compensation") l then .numeric
  else if containsSub (chars "year") l && containsSub (chars "experience") l then .numeric
  else if containsSub (chars "authorized to work") l ||
          containsSub (chars "require sponsorship") l then .boolean
  else .text

/-- `_get_fallback_answer` (IMPLEMENTATION.md lines 433-465), branch for branch. -/
def _get_fallback_answer (question : Str) (field_type : FieldType) : Str :=
  let q := lower question
  if containsSub (chars "phone") q || containsSub (chars "mobile") q then chars "5551234567"
  else if containsSub (chars "email") q then chars "alex.danny@email.com"
  else if containsSub (chars "city") q then chars "New York"
  else if containsSub (chars "state") q then chars "NY"
  else if containsSub (chars "year") q && containsSub (chars "experience") q then chars "5"
  else if containsSub (chars "salary") q || containsSub (chars "compensation") q then chars "120000"
  else if field_type = FieldType.boolean then
    (if containsSub (chars "sponsorship") q then chars "No" else chars "Yes")
  else chars "Not applicable"

/-- One answer-service attempt: the call may raise (`error`) or return text. -/
abbrev AnswerOracle := Nat → Except Unit Str

/-- The attempt loop of `_get_answer_with_retry` (IMPLEMENTATION.md lines 665-679):
try each attempt, accept the first response whose strip is non-empty, swallow
exceptions; returns the accepted answer (if any) and the number of service calls. -/
def tryAttempts (oracle : AnswerOracle) : Nat → Nat → Option Str × Nat
  | _, 0 => (none, 0)
  | attempt, r + 1 =>
    match oracle attempt with
    | .ok a =>
      if pyStrip a ≠ [] then (some a, 1)
      else
        let p := tryAttempts oracle (attempt + 1) r
        (p.1, p.2 + 1)
    | .error _ =>
      let p := tryAttempts oracle (attempt + 1) r
      (p.1, p.2 + 1)

/-- `_get_answer_with_retry` (IMPLEMENTATION.md lines 665-679): up to `MAX_RETRIES`
attempts, then the deterministic fallback.  Returns the answer and the number of
answer-service invocations made. -/
def _get_answer_with_retry (oracle : AnswerOracle) (question : Str)
    (field_type : FieldType) : Str × Nat :=
  match tryAttempts oracle 0 MAX_RETRIES with
  | (some a, n) => (a, n)
  | (none, n) => (_get_fallback_answer question field_type, n)

/-- Scope of a DOM selector query or interaction issued by the bot. -/
inductive QScope where
  /-- issued on the located modal container handle -/
  | modal
  /-- issued on a previously obtained element handle -/
  | element
  /-- issued on `self.page`, i.e. the whole document -/
  | document
deriving DecidableEq, Repr

/-- Whether a DOM operation reads or mutates the page. -/
inductive QAccess where
  | read
  | write
deriving DecidableEq, Repr

/-- One DOM query/interaction, recorded with its scope. -/
structure Query where
  scope : QScope
  selector : Str
  access : QAccess
deriving DecidableEq, Repr

/-- The attributes of a form element consulted by `_get_field_label`. -/
structure Element where
  aria_label : Option Str
  elementId : Option Str
  placeholder : Option Str
  parent_label : Option Str
deriving DecidableEq, Repr

/-- The selector string `label[for="<id>"]` built at IMPLEMENTATION.md line 348. -/
def labelForSel (fid : Str) : Str := chars "label[for=\"" ++ fid ++ chars "\"]"

/-- Strategies 3 and 4 of `_get_field_label` (placeholder attribute, then the
enclosing label ancestor's text, then "Unknown"); `qs` carries the selector
queries already issued by the earlier strategies. -/
def labelStep34 (el : Element) (qs : List Query) : Str × List Query :=
  match el.placeholder with
  | some p => (pyStrip p, qs)
  | none =>
    match el.parent_label with
    | some t => (pyStrip t, qs)
    | none => (chars "Unknown", qs)

/-- `_get_field_label` (IMPLEMENTATION.md lines 337-368): four fallback label
strategies.  `pageLabelFor` answers the page-level `label[for=...]` lookup of
strategy 2 (`self.page.query_selector`), which is recorded in the returned
query trace as a document-scoped read. -/
def _get_field_label (pageLabelFor : Str → Option Str) (el : Element) : Str × List Query :=
  match el.aria_label with
  | some a => (pyStrip a, [])
  | none =>
    match el.elementId with
    | some fid =>
      match pageLabelFor fid with
      | some txt => (pyStrip txt, [⟨QScope.document, labelForSel fid, QAccess.read⟩])
      | none => labelStep34 el [⟨QScope.document, labelForSel fid, QAccess.read⟩]
    | none => labelStep34 el []

/-- A text input of the modal: its attributes and its current value. -/
structure TextInputEl where
  el : Element
  value : Str
deriving DecidableEq, Repr

/-- `fill_field` (IMPLEMENTATION.md Algorithm 2, lines 862-892) for one text
input: derive the label, apply the skip rule, the pre-filled rule, then
clear-and-write the resolved answer.  Returns the new element state, the
number of answer-service calls, and the DOM query trace. -/
def fill_field (pageLabelFor : Str → Option Str) (oracle : AnswerOracle)
    (t : TextInputEl) : TextInputEl × Nat × List Query :=
  let lp := _get_field_label pageLabelFor t.el
  if skipHit lp.1 then (t, 0, lp.2)
  else if t.value ≠ [] ∧ t.value.length < 100 then (t, 0, lp.2)
  else
    let ft := _determine_field_type lp.1
    let an := _get_answer_with_retry oracle lp.1 ft
    ({ t with value := an.1 }, an.2, lp.2 ++ [⟨QScope.element, chars "fill", QAccess.write⟩])

/-- Checkbox handling (IMPLEMENTATION.md lines 537-559): consent keywords
auto-check with no service call, otherwise the service is asked; the box is
clicked only if the desired state differs.  Returns the final checked state,
the number of answer-service calls, and the DOM query trace. -/
def handle_checkbox (pageLabelFor : Str → Option Str) (oracle : AnswerOracle)
    (el : Element) (is_checked : Bool) : Bool × Nat × List Query :=
  let lp := _get_field_label pageLabelFor el
  let sc : Bool × Nat :=
    if consentHit lp.1 then (true, 0)
    else
      let an := _get_answer_with_retry oracle
        (chars "Should I check this checkbox: " ++ lp.1 ++ chars "?") FieldType.boolean
      (containsSub (chars "yes") (lower an.1), an.2)
  if sc.1 ∧ is_checked = false then
    (true, sc.2, lp.2 ++ [⟨QScope.element, chars "click", QAccess.write⟩])
  else (is_checked, sc.2, lp.2)

/-- A file input of the modal: its attributes and how many files it holds. -/
structure FileInput where
  el : Element
  files_count : Nat
deriving DecidableEq, Repr

/-- `_upload_resume` (IMPLEMENTATION.md lines 566-586): for every file input
with no file attached, attach the resume; labels are never consulted.
Returns the new inputs and the number of uploads performed. -/
def _upload_resume : List FileInput → List FileInput × Nat
  | [] => ([], 0)
  | f :: fs =>
    let r := _upload_resume fs
    if f.files_count > 0 then (f :: r.1, r.2)
    else ({ f with files_count := 1 } :: r.1, r.2 + 1)

/-- The control-enumeration queries of `_fill_modal_fields`, all issued on the
modal handle (`modal.query_selector_all`, IMPLEMENTATION.md lines 79-81, 485,
569, and the radio/checkbox enumeration). -/
def enumerationQueries : List Query :=
  [⟨QScope.modal, chars "input[type=\"text\"]", QAccess.read⟩,
   ⟨QScope.modal, chars "select", QAccess.read⟩,
   ⟨QScope.modal, chars "input[type=\"radio\"]", QAccess.read⟩,
   ⟨QScope.modal, chars "input[type=\"checkbox\"]", QAccess.read⟩,
   ⟨QScope.modal, chars "input[type=\"file\"]", QAccess.read⟩]

/-- The DOM query trace of one `_fill_modal_fields` pass over the modal:
enumeration queries, then the per-field traces of the text inputs and
checkboxes, then the resume uploads (writes on file-input handles). -/
def _fill_modal_fields_trace (pageLabelFor : Str → Option Str) (oracle : AnswerOracle)
    (textInputs : List TextInputEl) (checkboxes : List (Element × Bool))
    (fileInputs : List FileInput) : List Query :=
  enumerationQueries
    ++ (textInputs.map (fun t => (fill_field pageLabelFor oracle t).2.2)).flatten
    ++ (checkboxes.map (fun eb => (handle_checkbox pageLabelFor oracle eb.1 eb.2).2.2)).flatten
    ++ ((fileInputs.filter (fun f => f.files_count == 0)).map
        (fun _ => ⟨QScope.element, chars "set_input_files", QAccess.write⟩))

/-- One `_check_for_errors` outcome folded into the consecutive-error counter
(IMPLEMENTATION.md lines 646-661): on error increment and abort at 3, on no
error reset to 0.  Returns the new counter and whether the attempt aborts. -/
def errorCheckStep (consecutive_errors : Nat) (error_detected : Bool) : Nat × Bool :=
  if error_detected then (consecutive_errors + 1, decide (3 ≤ consecutive_errors + 1))
  else (0, false)

/-- The error-check part of the modal loop run over a sequence of
`_check_for_errors` outcomes: returns whether the attempt aborted and how
many fill-and-check iterations were executed (the loop returns immediately
on abort, so later outcomes are never reached). -/
def runErrorChecks : Nat → List Bool → Bool × Nat
  | _, [] => (false, 0)
  | c, e :: es =>
    if (errorCheckStep c e).2 then (true, 1)
    else
      let p := runErrorChecks (errorCheckStep c e).1 es
      (p.1, p.2 + 1)

/-- Whether a list of error outcomes contains three consecutive `true`s. -/
def hasThreeConsec : List Bool → Bool
  | a :: b :: c :: t => (a && b && c) || hasThreeConsec (b :: c :: t)
  | _ => false

/-- Length of the initial run of `true`s. -/
def trueRun : List Bool → Nat
  | true :: t => trueRun t + 1
  | _ => 0

/-- What the modal shows at one step of the navigation loop: presence and
enabled state of the submit/next/review buttons, and whether inline
validation errors are displayed. -/
structure Tick where
  submitPresent : Bool
  submitEnabled : Bool
  nextPresent : Bool
  nextEnabled : Bool
  reviewPresent : Bool
  reviewEnabled : Bool
  hasErrors : Bool
deriving DecidableEq, Repr

/-- Terminal outcome of one application attempt. -/
inductive Outcome where
  | submitted
  | aborted
  | timedOut
deriving DecidableEq, Repr

/-- The consecutive-error update performed inside the navigation loop. -/
def nextConsec (consec : Nat) (e : Bool) : Nat := if e = true then consec + 1 else 0

/-- `_handle_application_modal` navigation loop (IMPLEMENTATION.md Algorithm 3,
lines 901-955): per iteration, check the submit button first (click and stop),
otherwise upload/fill, run the error check (abort at 3 consecutive errors),
then try next (page counter incremented) and review in that order; when no
button makes progress, retry; when the step budget (the fuel argument,
`MAX_STEPS` in the source, whose value the sources do not give) is exhausted,
time out.  `env step` is what the modal shows at step `step`.  Returns the
outcome and the final page counter. -/
def modalLoop (env : Nat → Tick) : Nat → Nat → Nat → Nat → Outcome × Nat
  | 0, _, page, _ => (.timedOut, page)
  | r + 1, step, page, consec =>
    let t := env step
    if t.submitPresent = true ∧ t.submitEnabled = true then (.submitted, page)
    else
      let c2 := nextConsec consec t.hasErrors
      if t.hasErrors = true ∧ 3 ≤ c2 then (.aborted, page)
      else if t.nextPresent = true ∧ t.nextEnabled = true then
        modalLoop env r (step + 1) (page + 1) c2
      else if t.reviewPresent = true ∧ t.reviewEnabled = true then
        modalLoop env r (step + 1) page c2
      else modalLoop env r (step + 1) page c2

/-- The `self.stats` dictionary (IMPLEMENTATION.md lines 689-694). -/
structure Stats where
  applications_submitted : Nat
  applications_failed : Nat
  fields_filled : Nat
  errors_encountered : Nat
deriving DecidableEq, Repr

/-- Modelled from the spec: outcome accounting for one attempt.  The sources
show `applications_failed += 1` on the consecutive-error abort and
`applications_submitted += 1  # On success`, but the `apply_to_jobs` caller of
`_handle_application_modal` is not among the repository sources; per the spec
(§4.5) submitted increments `submitted` and Aborted/TimedOut increment
`failed` exactly once per attempt. -/
def update_after_attempt (s : Stats) : Outcome → Stats
  | .submitted => { s with applications_submitted := s.applications_submitted + 1 }
  | .aborted => { s with applications_failed := s.applications_failed + 1 }
  | .timedOut => { s with applications_failed := s.applications_failed + 1 }

/-- The inner selector loop of `_get_modal_with_retry` (IMPLEMENTATION.md
lines 277-283): try the selectors in order, return the first hit. -/
def trySelectors {H : Type} (q : Str → Option H) : List Str → Option H
  | [] => none
  | s :: ss =>
    match q s with
    | some m => some m
    | none => trySelectors q ss

/-- Attempt loop of `_get_modal_with_retry` (IMPLEMENTATION.md lines 275-288):
`q attempt selector` is the page's answer to `page.query_selector(selector)`
during that attempt; between attempts (but not after the last) the bot sleeps
`RETRY_DELAY`.  Returns the located modal (if any) and the list of sleeps. -/
def _get_modal_with_retry_aux {H : Type} (q : Nat → Str → Option H) :
    Nat → Nat → Option H × List Nat
  | _, 0 => (none, [])
  | attempt, r + 1 =>
    match trySelectors (q attempt) MODAL_SELECTORS with
    | some m => (some m, [])
    | none =>
      let p := _get_modal_with_retry_aux q (attempt + 1) r
      (p.1, if 0 < r then RETRY_DELAY :: p.2 else p.2)

/-- `_get_modal_with_retry` (IMPLEMENTATION.md lines 275-288). -/
def _get_modal_with_retry {H : Type} (q : Nat → Str → Option H) : Option H × List Nat :=
  _get_modal_with_retry_aux q 0 MAX_RETRIES

/-- The page-side behaviour of one job: how modal-locator queries are answered
and what the modal shows at each navigation step. -/
structure Job where
  modalQuery : Nat → Str → Option Unit
  env : Nat → Tick

/-- Modelled from the spec: one iteration of the `apply_to_jobs` loop (the
loop body is not among the repository sources; per the spec, §4.5 and §8,
modal NotFound aborts the attempt and counts one failure, otherwise the
modal loop runs and its outcome is recorded). -/
def apply_one (maxSteps : Nat) (j : Job) (s : Stats) : Stats :=
  match (_get_modal_with_retry j.modalQuery).1 with
  | none => { s with applications_failed := s.applications_failed + 1 }
  | some _ => update_after_attempt s (modalLoop j.env maxSteps 0 1 0).1

/-- Modelled from the spec: the `apply_to_jobs` batch loop — one job finishes
before the next begins, and a failed attempt never stops the batch. -/
def apply_to_jobs (maxSteps : Nat) : List Job → Stats → Stats
  | [], s => s
  | j :: js, s => apply_to_jobs maxSteps js (apply_one maxSteps j s)

/-- Whether a string is a plain numeric literal (digits and dots, non-empty). -/
def numericShaped (s : Str) : Bool :=
  !s.isEmpty && s.all (fun c => c.isDigit || c == '.')

/-- Modelled from the spec: numeric normalization of the Answer Resolver (the
`_handle_numeric_question` helper of `ai_handler.py` is not among the
repository sources); per the spec §4.3 item 5 and the README excerpt, a value
containing a "/" fraction pattern is reduced to its first numeric component. -/
def normalize_numeric (s : Str) : Str :=
  if s.contains '/' then s.takeWhile (fun c => c != '/') else s

/-- Whether one answer-service attempt failed or produced only whitespace. -/
def badAttempt : Except Unit Str → Bool
  | .error _ => true
  | .ok a => (pyStrip a).isEmpty

/-- No two adjacent whitespace characters (no whitespace run longer than 1). -/
def noWsRun : Str → Bool
  | [] => true
  | [_] => true
  | a :: b :: t => !(isPySpace a && isPySpace b) && noWsRun (b :: t)

/-- A file input whose derived label is the skip keyword phrase "Filter by
attachment" and which has no file attached. -/
def c4_file_input : FileInput := ⟨⟨some (chars "Filter by attachment"), none, none, none⟩, 0⟩

/-- A text input whose aria-label is a page-level search control label. -/
def c4_skip_text : TextInputEl :=
  ⟨⟨some (chars "Search by title, skill, or company"), none, none, none⟩, []⟩

/-- A text input already holding the value "Boston". -/
def c5_filled : TextInputEl := ⟨⟨some (chars "City"), none, none, none⟩, chars "Boston"⟩

/-- An element whose derived label contains the consent keyword "agree". -/
def c6_consent_el : Element := ⟨some (chars "I agree to the terms and conditions"), none, none, none⟩

/-- An empty text input carrying a consent-keyword label. -/
def c6_text_field : TextInputEl := ⟨c6_consent_el, []⟩

/-- A text input with no aria-label whose element id is "q1", forcing label
strategy 2 (the page-level `label[for="q1"]` lookup). -/
def c1_labeled_input : TextInputEl := ⟨⟨none, some (chars "q1"), none, none⟩, []⟩

/-- The query trace of a fill pass over a modal containing exactly the
labelled input `c1_labeled_input`, on a page that resolves `label[for="q1"]`. -/
def c1_trace : List Query :=
  _fill_modal_fields_trace (fun _ => some (chars "Preferred name"))
    (fun _ => Except.ok (chars "Alex")) [c1_labeled_input] [] []

/-!  ## Theorems  -/

theorem pyStrip_nil : pyStrip ([] : Str) = [] := rfl

theorem pyStrip_ne_nil_of {a : Str} (h : pyStrip a ≠ []) : a ≠ [] := by
  intro he
  exact h (he ▸ pyStrip_nil)

theorem fallback_ne_nil (question : Str) (ft : FieldType) :
    _get_fallback_answer question ft ≠ [] := by
  simp only [_get_fallback_answer]
  repeat' split
  all_goals decide

theorem tryAttempts_some_ne_nil (oracle : AnswerOracle) :
    ∀ r attempt a, (tryAttempts oracle attempt r).1 = some a → a ≠ [] := by
  intro r
  induction r with
  | zero => intro attempt a h; simp [tryAttempts] at h
  | succ n ih =>
    intro attempt a h
    simp only [tryAttempts] at h
    split at h
    · split at h
      · rename_i hv
        simp only [Option.some.injEq] at h
        exact h ▸ pyStrip_ne_nil_of hv
      · exact ih (attempt + 1) a h
    · exact ih (attempt + 1) a h

theorem tryAttempts_none_of_bad (oracle : AnswerOracle) :
    ∀ r attempt, (∀ i, attempt ≤ i → i < attempt + r → badAttempt (oracle i) = true) →
    (tryAttempts oracle attempt r).1 = none := by
  intro r
  induction r with
  | zero => intro attempt _; rfl
  | succ n ih =>
    intro attempt h
    have h0 : badAttempt (oracle attempt) = true := h attempt (Nat.le_refl _) (by omega)
    simp only [tryAttempts]
    split
    · rename_i v heq
      rw [heq] at h0
      simp only [badAttempt, List.isEmpty_iff] at h0
      rw [if_neg (by simp [h0])]
      exact ih (attempt + 1) (by intro i h1 h2; exact h i (by omega) (by omega))
    · exact ih (attempt + 1) (by intro i h1 h2; exact h i (by omega) (by omega))

/-- C10: the answer-resolution retry wrapper is total: it always returns a
non-empty string (so no exception from the answer service escapes), and when
every one of the `MAX_RETRIES` attempts raises or yields a whitespace-only
answer it returns the deterministic fallback, whose every branch is a fixed
non-empty string. -/
theorem c10_retry_total_fallback (oracle : AnswerOracle) (question : Str) (ft : FieldType) :
    (_get_answer_with_retry oracle question ft).1 ≠ [] ∧
    _get_fallback_answer question ft ≠ [] ∧
    ((∀ i, i < MAX_RETRIES → badAttempt (oracle i) = true) →
      (_get_answer_with_retry oracle question ft).1 = _get_fallback_answer question ft) := by
  refine ⟨?_, fallback_ne_nil question ft, ?_⟩
  · rcases htry : tryAttempts oracle 0 MAX_RETRIES with ⟨fst, n⟩
    cases fst with
    | none => simp [_get_answer_with_retry, htry, fallback_ne_nil]
    | some a =>
      have : a ≠ [] := tryAttempts_some_ne_nil oracle MAX_RETRIES 0 a (by rw [htry])
      simp [_get_answer_with_retry, htry, this]
  · intro hbad
    have hnone : (tryAttempts oracle 0 MAX_RETRIES).1 = none :=
      tryAttempts_none_of_bad oracle MAX_RETRIES 0 (by intro i _ h2; exact hbad i (by omega))
    rcases htry : tryAttempts oracle 0 MAX_RETRIES with ⟨fst, n⟩
    rw [htry] at hnone
    cases fst with
    | none => simp [_get_answer_with_retry, htry]
    | some a => simp at hnone

theorem c10_retry_total_fallback_witness :
    (_get_answer_with_retry (fun _ => Except.error ()) (chars "favorite color") FieldType.text).1 =
      _get_fallback_answer (chars "favorite color") FieldType.text ∧
    _get_fallback_answer (chars "favorite color") FieldType.text ≠ [] :=
  ⟨(c10_retry_total_fallback (fun _ => Except.error ()) (chars "favorite color")
      FieldType.text).2.2 (fun _ _ => rfl),
   (c10_retry_total_fallback (fun _ => Except.error ()) (chars "favorite color")
      FieldType.text).2.1⟩

theorem takeWhile_no_slash (b : Str) :
    ∀ a : Str, (∀ c ∈ a, (c != '/') = true) →
    List.takeWhile (fun c => c != '/') (a ++ '/' :: b) = a := by
  intro a
  induction a with
  | nil => intro _; simp [List.takeWhile]
  | cons c a ih =>
    intro h
    have hc : (c != '/') = true := h c (List.mem_cons_self c a)
    simp only [List.cons_append, List.takeWhile_cons, hc, if_true]
    rw [ih (by intro x hx; exact h x (List.mem_cons_of_mem c hx))]

/-- C9: numeric normalization reduces a fraction-shaped value `<a>/<b>` (both
components numeric-shaped) to exactly its first component `<a>`. -/
theorem c9_fraction_normalization (a b : Str) (ha : numericShaped a = true)
    (hb : numericShaped b = true) :
    normalize_numeric (a ++ '/' :: b) = a := by
  have hall : ∀ c ∈ a, (c.isDigit || c == '.') = true := by
    simp only [numericShaped, Bool.and_eq_true, List.all_eq_true] at ha
    exact ha.2
  have hmem : ∀ c ∈ a, (c != '/') = true := by
    intro c hc
    simp only [bne_iff_ne, ne_eq]
    intro hEq
    subst hEq
    exact absurd (hall '/' hc) (by decide)
  have hcont : (a ++ '/' :: b).contains '/' = true := by
    have hm : '/' ∈ a ++ '/' :: b := List.mem_append_right a (List.mem_cons_self _ _)
    simp only [List.contains_iff_exists_mem_beq]
    exact ⟨'/', hm, rfl⟩
  rw [normalize_numeric, if_pos hcont]
  exact takeWhile_no_slash b a hmem

theorem c9_fraction_normalization_witness :
    normalize_numeric (chars "3.5" ++ '/' :: chars "4.0") = chars "3.5" :=
  c9_fraction_normalization (chars "3.5") (chars "4.0") (by decide) (by decide)

theorem labelStep34_trace (el : Element) (qs : List Query) : (labelStep34 el qs).2 = qs := by
  obtain ⟨a, i, p, pl⟩ := el
  cases p <;> cases pl <;> rfl

theorem gfl_trace_cases (pg : Str → Option Str) (el : Element) :
    (_get_field_label pg el).2 = [] ∨
    ∃ fid, el.elementId = some fid ∧
      (_get_field_label pg el).2 = [⟨QScope.document, labelForSel fid, QAccess.read⟩] := by
  obtain ⟨a, i, p, pl⟩ := el
  cases a with
  | some _ => exact Or.inl rfl
  | none =>
    cases i with
    | none => exact Or.inl (labelStep34_trace _ _)
    | some fid =>
      cases hq : pg fid with
      | some txt => exact Or.inr ⟨fid, rfl, by simp [_get_field_label, hq]⟩
      | none => exact Or.inr ⟨fid, rfl, by simp [_get_field_label, hq, labelStep34_trace]⟩

theorem gfl_trace_read (pg : Str → Option Str) (el : Element) :
    ∀ q ∈ (_get_field_label pg el).2,
    q.access = QAccess.read ∧ q.scope = QScope.document ∧ ∃ fid, q.selector = labelForSel fid := by
  intro q hq
  rcases gfl_trace_cases pg el with h | ⟨fid, _, h⟩
  · rw [h] at hq
    exact absurd hq (List.not_mem_nil q)
  · rw [h] at hq
    simp only [List.mem_singleton] at hq
    subst hq
    exact ⟨rfl, rfl, fid, rfl⟩

theorem fill_field_skip (pl : Str → Option Str) (oracle : AnswerOracle) (t : TextInputEl)
    (h : skipHit (_get_field_label pl t.el).1 = true) :
    fill_field pl oracle t = (t, 0, (_get_field_label pl t.el).2) := by
  simp [fill_field, h]

theorem fill_field_prefilled (pl : Str → Option Str) (oracle : AnswerOracle) (t : TextInputEl)
    (hs : ¬skipHit (_get_field_label pl t.el).1 = true)
    (h1 : t.value ≠ []) (h2 : t.value.length < 100) :
    fill_field pl oracle t = (t, 0, (_get_field_label pl t.el).2) := by
  simp only [fill_field]
  rw [if_neg hs, if_pos ⟨h1, h2⟩]

/-- C4 (amended): for fields resolved through the `fill_field` algorithm
(the label-deriving form controls), a derived label containing a skip keyword
means the field is left untouched: the element state is unchanged, no
answer-service call is made, and the field's query trace contains only reads.
The claim as stated — covering file inputs too — fails: see
`c4_counterexample` (`_upload_resume` never derives a label). -/
theorem c4_skip_rule_fill_field (pl : Str → Option Str) (oracle : AnswerOracle)
    (t : TextInputEl) (h : skipHit (_get_field_label pl t.el).1 = true) :
    (fill_field pl oracle t).1 = t ∧ (fill_field pl oracle t).2.1 = 0 ∧
    ∀ q ∈ (fill_field pl oracle t).2.2, q.access = QAccess.read := by
  rw [fill_field_skip pl oracle t h]
  exact ⟨rfl, rfl, fun q hq => (gfl_trace_read pl t.el q hq).1⟩

theorem c4_skip_rule_fill_field_witness :
    (fill_field (fun _ => none) (fun _ => Except.error ()) c4_skip_text).1 = c4_skip_text :=
  (c4_skip_rule_fill_field (fun _ => none) (fun _ => Except.error ()) c4_skip_text (by decide)).1

/-- C4 counterexample: a file input whose derived label contains the skip
keyword "filter by" and which holds no file is nevertheless written —
`_upload_resume` attaches the resume to every empty file input without
consulting any label, refuting "never writes ... regardless of the field's
kind (... or file input)". -/
theorem c4_counterexample :
    skipHit (_get_field_label (fun _ => none) c4_file_input.el).1 = true ∧
    c4_file_input.files_count = 0 ∧
    _upload_resume [c4_file_input] = ([⟨c4_file_input.el, 1⟩], 1) := by decide

/-- C5: `resolve` is idempotent on pre-filled controls: a field already
holding a non-empty value shorter than 100 is returned unchanged — no
overwrite, no answer-service call, and only read queries are issued for it. -/
theorem c5_prefilled_idempotent (pl : Str → Option Str) (oracle : AnswerOracle)
    (t : TextInputEl) (h1 : t.value ≠ []) (h2 : t.value.length < 100) :
    (fill_field pl oracle t).1 = t ∧ (fill_field pl oracle t).2.1 = 0 ∧
    ∀ q ∈ (fill_field pl oracle t).2.2, q.access = QAccess.read := by
  by_cases hs : skipHit (_get_field_label pl t.el).1 = true
  · rw [fill_field_skip pl oracle t hs]
    exact ⟨rfl, rfl, fun q hq => (gfl_trace_read pl t.el q hq).1⟩
  · rw [fill_field_prefilled pl oracle t hs h1 h2]
    exact ⟨rfl, rfl, fun q hq => (gfl_trace_read pl t.el q hq).1⟩

theorem c5_prefilled_idempotent_witness :
    (fill_field (fun _ => none) (fun _ => Except.error ()) c5_filled).1 = c5_filled :=
  (c5_prefilled_idempotent (fun _ => none) (fun _ => Except.error ()) c5_filled
    (by decide) (by decide)).1

/-- C6 (amended): for checkbox fields, a consent-keyword label short-circuits
resolution: the box ends up checked (the affirmative answer) and the answer
service is never invoked for it.  The claim as stated — over every field
kind — fails: see `c6_counterexample` (a text input with a consent-keyword
label still invokes the service). -/
theorem c6_consent_checkbox (pl : Str → Option Str) (oracle : AnswerOracle) (el : Element)
    (ic : Bool) (h : consentHit (_get_field_label pl el).1 = true) :
    (handle_checkbox pl oracle el ic).1 = true ∧
    (handle_checkbox pl oracle el ic).2.1 = 0 := by
  cases ic <;> simp [handle_checkbox, h]

theorem c6_consent_checkbox_witness :
    (handle_checkbox (fun _ => none) (fun _ => Except.error ()) c6_consent_el false).1 = true ∧
    (handle_checkbox (fun _ => none) (fun _ => Except.error ()) c6_consent_el false).2.1 = 0 :=
  c6_consent_checkbox (fun _ => none) (fun _ => Except.error ()) c6_consent_el false (by decide)

/-- C6 counterexample: a text input whose label contains the consent keyword
"agree" is resolved through `fill_field`, which calls the answer service
(one invocation recorded), refuting "the Answer Service Client is never
invoked for that field" for non-checkbox kinds. -/
theorem c6_counterexample :
    consentHit (_get_field_label (fun _ => none) c6_text_field.el).1 = true ∧
    (fill_field (fun _ => none) (fun _ => Except.ok (chars "Yes")) c6_text_field).2.1 = 1 := by
  decide

theorem pyWordsAux_chars : ∀ (s acc : Str), (∀ c ∈ acc, isPySpace c = false) →
    ∀ w ∈ pyWordsAux s acc, ∀ c ∈ w, isPySpace c = false := by
  intro s
  induction s with
  | nil =>
    intro acc hacc w hw c hc
    simp only [pyWordsAux] at hw
    split at hw
    · exact absurd hw (List.not_mem_nil w)
    · simp only [List.mem_singleton] at hw
      subst hw
      exact hacc c (List.mem_reverse.mp hc)
  | cons a t ih =>
    intro acc hacc w hw c hc
    simp only [pyWordsAux] at hw
    by_cases hs : isPySpace a
    · rw [if_pos hs] at hw
      split at hw
      · exact ih [] (fun x hx => absurd hx (List.not_mem_nil x)) w hw c hc
      · rcases List.mem_cons.mp hw with hw1 | hw2
        · subst hw1
          exact hacc c (List.mem_reverse.mp hc)
        · exact ih [] (fun x hx => absurd hx (List.not_mem_nil x)) w hw2 c hc
    · rw [if_neg hs] at hw
      refine ih (a :: acc) ?_ w hw c hc
      intro x hx
      rcases List.mem_cons.mp hx with h1 | h2
      · subst h1
        exact Bool.eq_false_iff.mpr hs
      · exact hacc x h2

theorem pyWordsAux_ne_nil : ∀ (s acc : Str), ∀ w ∈ pyWordsAux s acc, w ≠ [] := by
  intro s
  induction s with
  | nil =>
    intro acc w hw
    simp only [pyWordsAux] at hw
    split at hw
    · exact absurd hw (List.not_mem_nil w)
    · rename_i hne
      simp only [List.mem_singleton] at hw
      subst hw
      simp only [ne_eq, List.reverse_eq_nil_iff]
      exact fun h => hne (by simp [h])
  | cons a t ih =>
    intro acc w hw
    simp only [pyWordsAux] at hw
    by_cases hs : isPySpace a
    · rw [if_pos hs] at hw
      split at hw
      · exact ih [] w hw
      · rename_i hne
        rcases List.mem_cons.mp hw with h1 | h2
        · subst h1
          simp only [ne_eq, List.reverse_eq_nil_iff]
          exact fun h => hne (by simp [h])
        · exact ih [] w h2
    · rw [if_neg hs] at hw
      exact ih (a :: acc) w hw

theorem noWsRun_cons_of_not (a : Char) (t : Str) (h : isPySpace a = false) :
    noWsRun (a :: t) = noWsRun t := by
  cases t <;> simp [noWsRun, h]

theorem noWsRun_of_all_not : ∀ w : Str, (∀ c ∈ w, isPySpace c = false) → noWsRun w = true := by
  intro w
  induction w with
  | nil => intro _; rfl
  | cons c t ih =>
    intro h
    rw [noWsRun_cons_of_not c t (h c (List.mem_cons_self c t))]
    exact ih (fun x hx => h x (List.mem_cons_of_mem c hx))

theorem noWsRun_prepend : ∀ (w r : Str), (∀ c ∈ w, isPySpace c = false) →
    noWsRun r = true → noWsRun (w ++ r) = true := by
  intro w
  induction w with
  | nil => intro r _ hr; simpa using hr
  | cons c t ih =>
    intro r h hr
    rw [List.cons_append, noWsRun_cons_of_not c (t ++ r) (h c (List.mem_cons_self c t))]
    exact ih r (fun x hx => h x (List.mem_cons_of_mem c hx)) hr

theorem joinWords_cons_ex : ∀ (w : Str) (ws : List Str), ∃ t, joinWords (w :: ws) = w ++ t := by
  intro w ws
  cases ws with
  | nil => exact ⟨[], by simp [joinWords]⟩
  | cons w2 ws2 => exact ⟨' ' :: joinWords (w2 :: ws2), rfl⟩

theorem joinWords_chars : ∀ ws : List Str, (∀ w ∈ ws, ∀ c ∈ w, isPySpace c = false) →
    ∀ c ∈ joinWords ws, c = ' ' ∨ isPySpace c = false := by
  intro ws
  induction ws with
  | nil => intro _ c hc; exact absurd hc (List.not_mem_nil c)
  | cons w ws ih =>
    intro h c hc
    cases ws with
    | nil =>
      exact Or.inr (h w (List.mem_cons_self _ _) c (by simpa [joinWords] using hc))
    | cons w2 ws2 =>
      rw [show joinWords (w :: w2 :: ws2) = w ++ ' ' :: joinWords (w2 :: ws2) from rfl] at hc
      rcases List.mem_append.mp hc with h1 | h2
      · exact Or.inr (h w (List.mem_cons_self _ _) c h1)
      · rcases List.mem_cons.mp h2 with h3 | h4
        · exact Or.inl h3
        · exact ih (fun x hx => h x (List.mem_cons_of_mem w hx)) c h4

theorem noWsRun_joinWords : ∀ ws : List Str,
    (∀ w ∈ ws, w ≠ [] ∧ ∀ c ∈ w, isPySpace c = false) → noWsRun (joinWords ws) = true := by
  intro ws
  induction ws with
  | nil => intro _; rfl
  | cons w ws ih =>
    intro h
    cases ws with
    | nil => exact noWsRun_of_all_not w (h w (List.mem_cons_self _ _)).2
    | cons w2 ws2 =>
      have hw := h w (List.mem_cons_self _ _)
      have hrest : noWsRun (joinWords (w2 :: ws2)) = true :=
        ih (fun x hx => h x (List.mem_cons_of_mem w hx))
      have hw2 := h w2 (List.mem_cons_of_mem w (List.mem_cons_self _ _))
      obtain ⟨t, ht⟩ := joinWords_cons_ex w2 ws2
      have hsp : noWsRun (' ' :: joinWords (w2 :: ws2)) = true := by
        rw [ht]
        rcases hw2 with ⟨hne, hchars⟩
        cases w2 with
        | nil => exact absurd rfl hne
        | cons d w2t =>
          have hd : isPySpace d = false := hchars d (List.mem_cons_self d w2t)
          rw [List.cons_append]
          simp only [noWsRun, hd, Bool.and_false, Bool.not_false, Bool.true_and]
          rw [← List.cons_append, ← ht]
          exact hrest
      exact noWsRun_prepend w (' ' :: joinWords (w2 :: ws2)) hw.2 hsp

/-- C8: every answer returned by the answer-service client is normalized by
`generate_answer`'s cleaning step: the cleaned text contains no line break
(`\n` or `\r`) and no whitespace run longer than one space. -/
theorem c8_answer_normalized (raw : Str) :
    (∀ c ∈ generate_answer_clean raw, c ≠ '\n' ∧ c ≠ '\r') ∧
    noWsRun (generate_answer_clean raw) = true := by
  have hwords : ∀ w ∈ pySplitWs (((raw.map (fun c => if c = '\n' then ' ' else c)).map
      (fun c => if c = '\r' then ' ' else c))), w ≠ [] ∧ ∀ c ∈ w, isPySpace c = false := by
    intro w hw
    exact ⟨pyWordsAux_ne_nil _ [] w hw,
           pyWordsAux_chars _ [] (fun x hx => absurd hx (List.not_mem_nil x)) w hw⟩
  constructor
  · intro c hc
    have h2 : c = ' ' ∨ isPySpace c = false :=
      joinWords_chars _ (fun w hw => (hwords w hw).2) c hc
    rcases h2 with h | h
    · subst h
      exact ⟨by decide, by decide⟩
    · constructor
      · intro he
        subst he
        exact absurd h (by decide)
      · intro he
        subst he
        exact absurd h (by decide)
  · exact noWsRun_joinWords _ hwords

theorem c8_answer_normalized_witness :
    noWsRun (generate_answer_clean (chars "New\nYork   State")) = true ∧
    ('N' ≠ '\n' ∧ 'N' ≠ '\r') :=
  ⟨(c8_answer_normalized (chars "New\nYork   State")).2,
   (c8_answer_normalized (chars "New\nYork   State")).1 'N' (by decide)⟩

theorem trueRun_three_hasThree : ∀ es : List Bool, 3 ≤ trueRun es → hasThreeConsec es = true := by
  intro es
  match es with
  | [] => intro h; simp only [trueRun] at h; omega
  | false :: t => intro h; simp only [trueRun] at h; omega
  | [true] => intro h; simp only [trueRun] at h; omega
  | true :: false :: t => intro h; simp only [trueRun] at h; omega
  | [true, true] => intro h; simp only [trueRun] at h; omega
  | true :: true :: false :: t => intro h; simp only [trueRun] at h; omega
  | true :: true :: true :: t => intro _; rfl

theorem hasThree_false_cons (es : List Bool) :
    hasThreeConsec (false :: es) = hasThreeConsec es := by
  match es with
  | [] => rfl
  | [b] => rfl
  | b :: c :: t => simp [hasThreeConsec]

theorem hasThree_cons_of (a : Bool) (es : List Bool) (h : hasThreeConsec es = true) :
    hasThreeConsec (a :: es) = true := by
  match es with
  | [] => simp [hasThreeConsec] at h
  | [b] => simp [hasThreeConsec] at h
  | b :: c :: t => simp [hasThreeConsec, h]

theorem hasThree_of_two_trueRun : ∀ es : List Bool, 2 ≤ trueRun es →
    hasThreeConsec (true :: es) = true := by
  intro es
  match es with
  | [] => intro h; simp only [trueRun] at h; omega
  | false :: t => intro h; simp only [trueRun] at h; omega
  | [true] => intro h; simp only [trueRun] at h; omega
  | true :: false :: t => intro h; simp only [trueRun] at h; omega
  | true :: true :: t => intro _; rfl

theorem hasThree_true_cons_elim : ∀ es : List Bool, hasThreeConsec (true :: es) = true →
    2 ≤ trueRun es ∨ hasThreeConsec es = true := by
  intro es
  match es with
  | [] => intro h; simp [hasThreeConsec] at h
  | [b] => intro h; simp [hasThreeConsec] at h
  | b :: c :: t =>
    intro h
    simp only [hasThreeConsec, Bool.true_and, Bool.or_eq_true] at h
    rcases h with h2 | h2
    · rcases Bool.and_eq_true_iff.mp h2 with ⟨hb, hc2⟩
      subst hb
      subst hc2
      left
      simp only [trueRun]
      omega
    · right
      exact h2

theorem runErrorChecks_true_abort (c : Nat) (es : List Bool) (h : 3 ≤ c + 1) :
    runErrorChecks c (true :: es) = (true, 1) := by
  simp only [runErrorChecks]
  rw [if_pos (by simp [errorCheckStep, h])]

theorem runErrorChecks_true_cont (c : Nat) (es : List Bool) (h : ¬3 ≤ c + 1) :
    runErrorChecks c (true :: es) =
      ((runErrorChecks (c + 1) es).1, (runErrorChecks (c + 1) es).2 + 1) := by
  simp only [runErrorChecks]
  rw [if_neg (by simp [errorCheckStep, h])]
  rfl

theorem runErrorChecks_false (c : Nat) (es : List Bool) :
    runErrorChecks c (false :: es) =
      ((runErrorChecks 0 es).1, (runErrorChecks 0 es).2 + 1) := by
  simp only [runErrorChecks]
  rw [if_neg (by simp [errorCheckStep])]
  rfl

theorem runErrorChecks_abort_iff : ∀ (es : List Bool) (c : Nat), c < 3 →
    ((runErrorChecks c es).1 = true ↔
      (3 ≤ c + trueRun es ∨ hasThreeConsec es = true)) := by
  intro es
  induction es with
  | nil =>
    intro c hc
    simp only [runErrorChecks, trueRun, hasThreeConsec]
    constructor
    · intro h; simp at h
    · intro h
      rcases h with h | h
      · omega
      · simp at h
  | cons e es ih =>
    intro c hc
    cases e with
    | false =>
      rw [runErrorChecks_false c es]
      have htr : trueRun (false :: es) = 0 := rfl
      constructor
      · intro h
        rcases (ih 0 (by omega)).mp h with h2 | h2
        · right
          rw [hasThree_false_cons]
          exact trueRun_three_hasThree es (by omega)
        · right
          rw [hasThree_false_cons]
          exact h2
      · intro h
        rcases h with h2 | h2
        · omega
        · apply (ih 0 (by omega)).mpr
          right
          rwa [hasThree_false_cons] at h2
    | true =>
      have htr : trueRun (true :: es) = trueRun es + 1 := rfl
      by_cases hab : 3 ≤ c + 1
      · rw [runErrorChecks_true_abort c es hab]
        constructor
        · intro _
          left
          omega
        · intro _
          rfl
      · rw [runErrorChecks_true_cont c es hab]
        constructor
        · intro h
          rcases (ih (c + 1) (by omega)).mp h with h2 | h2
          · left
            omega
          · right
            exact hasThree_cons_of true es h2
        · intro h
          apply (ih (c + 1) (by omega)).mpr
          rcases h with h2 | h2
          · left
            omega
          · rcases hasThree_true_cons_elim es h2 with h3 | h3
            · left
              omega
            · right
              exact h3

theorem runErrorChecks_append_of_abort : ∀ (es : List Bool) (c : Nat) (es' : List Bool),
    (runErrorChecks c es).1 = true → runErrorChecks c (es ++ es') = runErrorChecks c es := by
  intro es
  induction es with
  | nil =>
    intro c es' h
    simp [runErrorChecks] at h
  | cons e es ih =>
    intro c es' h
    rw [List.cons_append]
    by_cases hstep : (errorCheckStep c e).2 = true
    · have h1 : runErrorChecks c (e :: (es ++ es')) = (true, 1) := by
        simp only [runErrorChecks]
        rw [if_pos hstep]
      have h2 : runErrorChecks c (e :: es) = (true, 1) := by
        simp only [runErrorChecks]
        rw [if_pos hstep]
      rw [h1, h2]
    · have h2 : (runErrorChecks (errorCheckStep c e).1 es).1 = true := by
        simp only [runErrorChecks] at h
        rw [if_neg hstep] at h
        exact h
      have hrec := ih (errorCheckStep c e).1 es' h2
      simp only [runErrorChecks]
      rw [if_neg hstep, if_neg hstep, hrec]

/-- C2: during one attempt, every error-free ErrorCheck resets the
consecutive-error counter to 0; every error-detecting ErrorCheck increments
it and aborts exactly when the new count reaches 3; over a whole run of
ErrorCheck outcomes, the attempt aborts iff three consecutive errors occur;
and once aborted the loop performs no further iteration (appended later
outcomes change nothing, so no further fill pass is attempted). -/
theorem c2_consecutive_error_abort :
    (∀ c, errorCheckStep c false = (0, false)) ∧
    (∀ c, (errorCheckStep c true).1 = c + 1) ∧
    (∀ c, ((errorCheckStep c true).2 = true ↔ 3 ≤ c + 1)) ∧
    (∀ es, ((runErrorChecks 0 es).1 = true ↔ hasThreeConsec es = true)) ∧
    (∀ es es', (runErrorChecks 0 es).1 = true →
      runErrorChecks 0 (es ++ es') = runErrorChecks 0 es) := by
  refine ⟨fun c => rfl, fun c => rfl, fun c => ?_, fun es => ?_,
    fun es es' => runErrorChecks_append_of_abort es 0 es'⟩
  · simp [errorCheckStep]
  · constructor
    · intro h
      rcases (runErrorChecks_abort_iff es 0 (by omega)).mp h with h2 | h2
      · exact trueRun_three_hasThree es (by omega)
      · exact h2
    · intro h
      exact (runErrorChecks_abort_iff es 0 (by omega)).mpr (Or.inr h)

theorem modalLoop_zero (env : Nat → Tick) (step page consec : Nat) :
    modalLoop env 0 step page consec = (Outcome.timedOut, page) := rfl

theorem modalLoop_submit (env : Nat → Tick) (r step page consec : Nat)
    (h1 : (env step).submitPresent = true) (h2 : (env step).submitEnabled = true) :
    modalLoop env (r + 1) step page consec = (Outcome.submitted, page) := by
  simp only [modalLoop]
  rw [if_pos ⟨h1, h2⟩]

theorem modalLoop_next (env : Nat → Tick) (r step page consec : Nat)
    (hs : ¬((env step).submitPresent = true ∧ (env step).submitEnabled = true))
    (he : ¬((env step).hasErrors = true ∧ 3 ≤ nextConsec consec (env step).hasErrors))
    (h1 : (env step).nextPresent = true) (h2 : (env step).nextEnabled = true) :
    modalLoop env (r + 1) step page consec =
      modalLoop env r (step + 1) (page + 1) (nextConsec consec (env step).hasErrors) := by
  simp only [modalLoop]
  rw [if_neg hs, if_neg he, if_pos ⟨h1, h2⟩]

theorem modalLoop_review (env : Nat → Tick) (r step page consec : Nat)
    (hs : ¬((env step).submitPresent = true ∧ (env step).submitEnabled = true))
    (he : ¬((env step).hasErrors = true ∧ 3 ≤ nextConsec consec (env step).hasErrors))
    (hn : ¬((env step).nextPresent = true ∧ (env step).nextEnabled = true))
    (h1 : (env step).reviewPresent = true) (h2 : (env step).reviewEnabled = true) :
    modalLoop env (r + 1) step page consec =
      modalLoop env r (step + 1) page (nextConsec consec (env step).hasErrors) := by
  simp only [modalLoop]
  rw [if_neg hs, if_neg he, if_neg hn, if_pos ⟨h1, h2⟩]

theorem modalLoop_stuck (env : Nat → Tick) (r step page consec : Nat)
    (hs : ¬((env step).submitPresent = true ∧ (env step).submitEnabled = true))
    (he : ¬((env step).hasErrors = true ∧ 3 ≤ nextConsec consec (env step).hasErrors))
    (hn : ¬((env step).nextPresent = true ∧ (env step).nextEnabled = true))
    (hr : ¬((env step).reviewPresent = true ∧ (env step).reviewEnabled = true)) :
    modalLoop env (r + 1) step page consec =
      modalLoop env r (step + 1) page (nextConsec consec (env step).hasErrors) := by
  simp only [modalLoop]
  rw [if_neg hs, if_neg he, if_neg hn, if_neg hr]

/-- C3: at every navigation decision the loop checks affordances in the exact
priority order submit, next, review, none: a present-and-enabled submit
button ends the attempt in Submitted (and the outcome accounting increments
the submitted counter); otherwise an enabled next button advances with the
page counter incremented; otherwise an enabled review button is clicked with
the page counter unchanged; otherwise the loop remains and retries; and the
attempt times out — counted as a failure — exactly when the step budget is
exhausted. -/
theorem c3_navigation_priority :
    (∀ (env : Nat → Tick) r step page consec,
      (env step).submitPresent = true → (env step).submitEnabled = true →
      modalLoop env (r + 1) step page consec = (Outcome.submitted, page)) ∧
    (∀ (env : Nat → Tick) r step page consec,
      ¬((env step).submitPresent = true ∧ (env step).submitEnabled = true) →
      ¬((env step).hasErrors = true ∧ 3 ≤ nextConsec consec (env step).hasErrors) →
      (env step).nextPresent = true → (env step).nextEnabled = true →
      modalLoop env (r + 1) step page consec =
        modalLoop env r (step + 1) (page + 1) (nextConsec consec (env step).hasErrors)) ∧
    (∀ (env : Nat → Tick) r step page consec,
      ¬((env step).submitPresent = true ∧ (env step).submitEnabled = true) →
      ¬((env step).hasErrors = true ∧ 3 ≤ nextConsec consec (env step).hasErrors) →
      ¬((env step).nextPresent = true ∧ (env step).nextEnabled = true) →
      (env step).reviewPresent = true → (env step).reviewEnabled = true →
      modalLoop env (r + 1) step page consec =
        modalLoop env r (step + 1) page (nextConsec consec (env step).hasErrors)) ∧
    (∀ (env : Nat → Tick) r step page consec,
      ¬((env step).submitPresent = true ∧ (env step).submitEnabled = true) →
      ¬((env step).hasErrors = true ∧ 3 ≤ nextConsec consec (env step).hasErrors) →
      ¬((env step).nextPresent = true ∧ (env step).nextEnabled = true) →
      ¬((env step).reviewPresent = true ∧ (env step).reviewEnabled = true) →
      modalLoop env (r + 1) step page consec =
        modalLoop env r (step + 1) page (nextConsec consec (env step).hasErrors)) ∧
    (∀ (env : Nat → Tick) step page consec,
      modalLoop env 0 step page consec = (Outcome.timedOut, page)) ∧
    (∀ s : Stats, update_after_attempt s Outcome.submitted =
        { s with applications_submitted := s.applications_submitted + 1 } ∧
      update_after_attempt s Outcome.timedOut =
        { s with applications_failed := s.applications_failed + 1 }) :=
  ⟨fun env r step page consec h1 h2 => modalLoop_submit env r step page consec h1 h2,
   fun env r step page consec hs he h1 h2 => modalLoop_next env r step page consec hs he h1 h2,
   fun env r step page consec hs he hn h1 h2 =>
     modalLoop_review env r step page consec hs he hn h1 h2,
   fun env r step page consec hs he hn hr => modalLoop_stuck env r step page consec hs he hn hr,
   fun env step page consec => modalLoop_zero env step page consec,
   fun s => ⟨rfl, rfl⟩⟩

theorem c3_navigation_priority_witness :
    modalLoop (fun _ => ⟨true, true, false, false, false, false, false⟩) 1 0 1 0 =
      (Outcome.submitted, 1) ∧
    modalLoop (fun _ => ⟨true, true, false, false, false, false, false⟩) 0 0 1 0 =
      (Outcome.timedOut, 1) :=
  ⟨c3_navigation_priority.1 (fun _ => ⟨true, true, false, false, false, false, false⟩)
      0 0 1 0 rfl rfl,
   c3_navigation_priority.2.2.2.2.1 (fun _ => ⟨true, true, false, false, false, false, false⟩)
      0 1 0⟩

theorem trySelectors_none_iff {H : Type} (q : Str → Option H) :
    ∀ ss : List Str, trySelectors q ss = none ↔ ∀ s ∈ ss, q s = none := by
  intro ss
  induction ss with
  | nil => simp [trySelectors]
  | cons s ss ih =>
    simp only [trySelectors]
    cases hq : q s with
    | some m => simp [hq, List.forall_mem_cons]
    | none => simp [hq, List.forall_mem_cons, ih]

theorem modal_retry_aux_found {H : Type} (q : Nat → Str → Option H) (a r : Nat) (m : H)
    (h : trySelectors (q a) MODAL_SELECTORS = some m) :
    _get_modal_with_retry_aux q a (r + 1) = (some m, []) := by
  simp only [_get_modal_with_retry_aux, h]

theorem modal_retry_aux_miss {H : Type} (q : Nat → Str → Option H) (a r : Nat)
    (h : trySelectors (q a) MODAL_SELECTORS = none) :
    _get_modal_with_retry_aux q a (r + 1) =
      ((_get_modal_with_retry_aux q (a + 1) r).1,
        if 0 < r then RETRY_DELAY :: (_get_modal_with_retry_aux q (a + 1) r).2
        else (_get_modal_with_retry_aux q (a + 1) r).2) := by
  simp only [_get_modal_with_retry_aux, h]

theorem modal_retry_aux_none_iff {H : Type} (q : Nat → Str → Option H) :
    ∀ r a, ((_get_modal_with_retry_aux q a r).1 = none ↔
      ∀ i < r, trySelectors (q (a + i)) MODAL_SELECTORS = none) := by
  intro r
  induction r with
  | zero => intro a; simp [_get_modal_with_retry_aux]
  | succ n ih =>
    intro a
    cases htry : trySelectors (q a) MODAL_SELECTORS with
    | some m =>
      rw [modal_retry_aux_found q a n m htry]
      constructor
      · intro h
        simp at h
      · intro h
        have h0 := h 0 (by omega)
        rw [Nat.add_zero] at h0
        rw [h0] at htry
        exact absurd htry (by simp)
    | none =>
      rw [modal_retry_aux_miss q a n htry]
      constructor
      · intro h i hi
        cases i with
        | zero =>
          rw [Nat.add_zero]
          exact htry
        | succ j =>
          have hj := (ih (a + 1)).mp h j (by omega)
          rw [show a + 1 + j = a + (j + 1) by omega] at hj
          exact hj
      · intro h
        apply (ih (a + 1)).mpr
        intro j hj
        have hh := h (j + 1) (by omega)
        rw [show a + (j + 1) = a + 1 + j by omega] at hh
        exact hh

theorem modal_retry_aux_delays {H : Type} (q : Nat → Str → Option H) :
    ∀ r a, (_get_modal_with_retry_aux q a r).1 = none →
      (_get_modal_with_retry_aux q a r).2 = List.replicate (r - 1) RETRY_DELAY := by
  intro r
  induction r with
  | zero => intro a _; rfl
  | succ n ih =>
    intro a h
    cases htry : trySelectors (q a) MODAL_SELECTORS with
    | some m =>
      rw [modal_retry_aux_found q a n m htry] at h
      simp at h
    | none =>
      rw [modal_retry_aux_miss q a n htry] at h ⊢
      have hn : (_get_modal_with_retry_aux q (a + 1) n).1 = none := h
      have hd := ih (a + 1) hn
      cases n with
      | zero => rfl
      | succ m2 =>
        rw [if_pos (Nat.succ_pos m2)]
        show RETRY_DELAY :: (_get_modal_with_retry_aux q (a + 1) (m2 + 1)).2 =
          List.replicate (m2 + 1 + 1 - 1) RETRY_DELAY
        rw [hd]
        simp [List.replicate_succ]

/-- C7: `_get_modal_with_retry` returns NotFound (`none`) exactly when all of
`MAX_RETRIES` attempts miss on every selector of the full ordered list; on
that path it sleeps the fixed `RETRY_DELAY` between attempts
(`MAX_RETRIES - 1` sleeps); and the apply loop then counts exactly one
failure for the attempt and proceeds to the next job (total — nothing is
raised to the caller). -/
theorem c7_modal_retry_abort :
    (∀ q : Nat → Str → Option Unit,
      ((_get_modal_with_retry q).1 = none ↔
        ∀ a < MAX_RETRIES, ∀ s ∈ MODAL_SELECTORS, q a s = none)) ∧
    (∀ q : Nat → Str → Option Unit, (_get_modal_with_retry q).1 = none →
      (_get_modal_with_retry q).2 = List.replicate (MAX_RETRIES - 1) RETRY_DELAY) ∧
    (∀ (maxSteps : Nat) (j : Job) js s, (_get_modal_with_retry j.modalQuery).1 = none →
      apply_to_jobs maxSteps (j :: js) s =
        apply_to_jobs maxSteps js
          { s with applications_failed := s.applications_failed + 1 }) := by
  refine ⟨?_, ?_, ?_⟩
  · intro q
    unfold _get_modal_with_retry
    rw [modal_retry_aux_none_iff q MAX_RETRIES 0]
    constructor
    · intro h a ha s hs
      have h0 := h a ha
      rw [Nat.zero_add] at h0
      exact (trySelectors_none_iff (q a) MODAL_SELECTORS).mp h0 s hs
    · intro h i hi
      rw [Nat.zero_add]
      exact (trySelectors_none_iff (q i) MODAL_SELECTORS).mpr (h i hi)
  · intro q h
    exact modal_retry_aux_delays q MAX_RETRIES 0 h
  · intro maxSteps j js s h
    simp only [apply_to_jobs, apply_one, h]

theorem c7_modal_retry_abort_witness :
    (_get_modal_with_retry (fun _ _ => (none : Option Unit))).2 =
      List.replicate (MAX_RETRIES - 1) RETRY_DELAY ∧
    apply_to_jobs 5 [⟨fun _ _ => none, fun _ => ⟨false, false, false, false, false, false, false⟩⟩]
        ⟨0, 0, 0, 0⟩ =
      apply_to_jobs 5 [] ⟨0, 1, 0, 0⟩ :=
  ⟨c7_modal_retry_abort.2.1 (fun _ _ => none) (by decide),
   c7_modal_retry_abort.2.2 5
     ⟨fun _ _ => none, fun _ => ⟨false, false, false, false, false, false, false⟩⟩
     [] ⟨0, 0, 0, 0⟩ (by decide)⟩

theorem c2_consecutive_error_abort_witness :
    errorCheckStep 1 false = (0, false) ∧
    (errorCheckStep 2 true).2 = true ∧
    (runErrorChecks 0 [true, true, true]).1 = true ∧
    runErrorChecks 0 ([true, true, true] ++ [false, true]) =
      runErrorChecks 0 [true, true, true] :=
  ⟨c2_consecutive_error_abort.1 1,
   (c2_consecutive_error_abort.2.2.1 2).mpr (by omega),
   (c2_consecutive_error_abort.2.2.2.1 [true, true, true]).mpr (by decide),
   c2_consecutive_error_abort.2.2.2.2 [true, true, true] [false, true] (by decide)⟩

theorem fill_field_else (pl : Str → Option Str) (oracle : AnswerOracle) (t : TextInputEl)
    (h1 : ¬skipHit (_get_field_label pl t.el).1 = true)
    (h2 : ¬(t.value ≠ [] ∧ t.value.length < 100)) :
    (fill_field pl oracle t).2.2 =
      (_get_field_label pl t.el).2 ++ [⟨QScope.element, chars "fill", QAccess.write⟩] := by
  simp only [fill_field]
  rw [if_neg h1, if_neg h2]

theorem fill_field_trace_sub (pl : Str → Option Str) (oracle : AnswerOracle) (t : TextInputEl) :
    ∀ q ∈ (fill_field pl oracle t).2.2,
    q ∈ (_get_field_label pl t.el).2 ∨
      q = ⟨QScope.element, chars "fill", QAccess.write⟩ := by
  intro q hq
  by_cases h1 : skipHit (_get_field_label pl t.el).1 = true
  · rw [fill_field_skip pl oracle t h1] at hq
    exact Or.inl hq
  · by_cases h2 : t.value ≠ [] ∧ t.value.length < 100
    · rw [fill_field_prefilled pl oracle t h1 h2.1 h2.2] at hq
      exact Or.inl hq
    · rw [fill_field_else pl oracle t h1 h2] at hq
      rcases List.mem_append.mp hq with h3 | h3
      · exact Or.inl h3
      · simp only [List.mem_singleton] at h3
        exact Or.inr h3

theorem handle_checkbox_trace_sub (pl : Str → Option Str) (oracle : AnswerOracle)
    (el : Element) (ic : Bool) :
    ∀ q ∈ (handle_checkbox pl oracle el ic).2.2,
    q ∈ (_get_field_label pl el).2 ∨
      q = ⟨QScope.element, chars "click", QAccess.write⟩ := by
  intro q hq
  simp only [handle_checkbox] at hq
  split at hq <;> split at hq
  all_goals
    first
      | exact Or.inl hq
      | (rcases List.mem_append.mp hq with h3 | h3
         · exact Or.inl h3
         · simp only [List.mem_singleton] at h3
           exact Or.inr h3)

/-- C1 (amended): in the fill pass over the located modal, every write is
issued on an element handle obtained inside the modal — no write is
document-scoped — and the only document-scoped queries in the trace are the
read-only `label[for="<id>"]` lookups of the Field Classifier's strategy 2,
which `_get_field_label` issues on `self.page`.  The claim as stated (no
query ever document-scoped) fails: see `c1_counterexample`. -/
theorem c1_scoped_queries (pl : Str → Option Str) (oracle : AnswerOracle)
    (tis : List TextInputEl) (cbs : List (Element × Bool)) (fis : List FileInput) :
    ∀ q ∈ _fill_modal_fields_trace pl oracle tis cbs fis,
      (q.access = QAccess.write → q.scope ≠ QScope.document) ∧
      (q.scope = QScope.document →
        q.access = QAccess.read ∧ ∃ fid, q.selector = labelForSel fid) := by
  intro q hq
  unfold _fill_modal_fields_trace at hq
  rcases List.mem_append.mp hq with hq1 | hqf
  rcases List.mem_append.mp hq1 with hq2 | hqc
  rcases List.mem_append.mp hq2 with hqe | hqt
  · have henum : ∀ p ∈ enumerationQueries,
        p.scope = QScope.modal ∧ p.access = QAccess.read := by decide
    have hp := henum q hqe
    refine ⟨fun hw => ?_, fun hd => ?_⟩
    · rw [hp.2] at hw
      exact absurd hw (by decide)
    · rw [hp.1] at hd
      exact absurd hd (by decide)
  · rcases List.mem_flatten.mp hqt with ⟨l, hl, hql⟩
    rcases List.mem_map.mp hl with ⟨t, _, rfl⟩
    rcases fill_field_trace_sub pl oracle t q hql with hgg | hwq
    · have hp := gfl_trace_read pl t.el q hgg
      refine ⟨fun hw => ?_, fun _ => ⟨hp.1, hp.2.2⟩⟩
      rw [hp.1] at hw
      exact absurd hw (by decide)
    · subst hwq
      exact ⟨fun _ => by decide, fun hd => absurd hd (by decide)⟩
  · rcases List.mem_flatten.mp hqc with ⟨l, hl, hql⟩
    rcases List.mem_map.mp hl with ⟨eb, _, rfl⟩
    rcases handle_checkbox_trace_sub pl oracle eb.1 eb.2 q hql with hgg | hwq
    · have hp := gfl_trace_read pl eb.1 q hgg
      refine ⟨fun hw => ?_, fun _ => ⟨hp.1, hp.2.2⟩⟩
      rw [hp.1] at hw
      exact absurd hw (by decide)
    · subst hwq
      exact ⟨fun _ => by decide, fun hd => absurd hd (by decide)⟩
  · rcases List.mem_map.mp hqf with ⟨f, _, hfq⟩
    subst hfq
    exact ⟨fun _ => by decide, fun hd => absurd hd (by decide)⟩

theorem c1_scoped_queries_witness :
    ((⟨QScope.modal, chars "select", QAccess.read⟩ : Query).access = QAccess.write →
      (⟨QScope.modal, chars "select", QAccess.read⟩ : Query).scope ≠ QScope.document) ∧
    ((⟨QScope.modal, chars "select", QAccess.read⟩ : Query).scope = QScope.document →
      (⟨QScope.modal, chars "select", QAccess.read⟩ : Query).access = QAccess.read ∧
      ∃ fid, (⟨QScope.modal, chars "select", QAccess.read⟩ : Query).selector = labelForSel fid) :=
  c1_scoped_queries (fun _ => none) (fun _ => Except.error ()) [] [] []
    ⟨QScope.modal, chars "select", QAccess.read⟩ (by decide)

/-- C1 counterexample: while filling a labelled text input the Field
Classifier issues the `label[for="q1"]` lookup on `self.page` — a
document-scoped query — so not every DOM query after modal location is
scoped to the located container. -/
theorem c1_counterexample :
    c1_trace.any (fun q => q.scope == QScope.document) = true ∧
    c1_trace.filter (fun q => q.scope == QScope.document) =
      [⟨QScope.document, labelForSel (chars "q1"), QAccess.read⟩] := by
  decide

end AutoJob
